import Mathlib

/-!
Verification development for the damped-oscillation signal-analysis pipeline
(`src/index.tsx`).  The numeric pipeline is embedded shallowly: JavaScript
floating-point numbers are idealised as exact rationals `ℚ` (the pipeline up to
and including normalisation uses only field operations, absolute value and
comparisons), and the transcendental parts of the envelope fitter
(`Math.log` / `Math.exp`) are idealised as `Real.log` / `Real.exp` on `ℝ`.
Machine-level float rounding is not modelled.

Parsing is embedded at token level: a data line, after trimming, comma→dot
replacement and whitespace splitting, is a list of tokens; each token is the
result of `parseFloat` + `Number.isFinite` filtering, i.e. `some v` for a
finite numeric value `v` and `none` for a token that does not parse to a
finite number (`NaN`, `±Infinity`).  Blank lines and quote-prefixed metadata
lines are dropped before this stage and are therefore not represented.
-/

/-- One parsed sample: `{time, voltage}` (`DataPoint` in `src/index.tsx`). -/
structure DataPoint where
  time : ℚ
  voltage : ℚ
  deriving DecidableEq, Repr

/-- A rising baseline crossing `{t, idx}`: interpolated crossing time (µs) and
the index of the smoothed sample immediately preceding it. -/
structure Crossing where
  t : ℚ
  idx : ℕ
  deriving DecidableEq, Repr

instance : Inhabited Crossing := ⟨⟨0, 0⟩⟩

/-- One per-cycle peak `{x, y}`: time (µs) and smoothed voltage. -/
structure Peak where
  x : ℚ
  y : ℚ
  deriving DecidableEq, Repr

instance : Inhabited Peak := ⟨⟨0, 0⟩⟩

/-- Envelope-fit parameters `{A, beta, C}` for `y = A·exp(beta·t) + C`.
`A` and `beta` come out of the log-linear regression (they involve `log`/`exp`,
hence `ℝ`); `C` is the baseline argument passed in, a rational. -/
structure FitParams where
  A : ℝ
  beta : ℝ
  C : ℚ

/-- Derived metrics (`SignalMetrics` in `src/index.tsx`). -/
structure SignalMetrics where
  frequencyKhz : ℚ
  beta : ℝ
  lambda : ℝ
  periodUs : ℚ
  validCycles : ℕ

/-- Clipping sentinel threshold: voltages of magnitude beyond `1e30` are
treated as scope clipping/overflow values. -/
def clipLimit : ℚ := 1e30

/-- Decision logic of `parseFileContent` for one tokenised data line
(`src/index.tsx` lines 44–67): needs ≥ 2 tokens, both parsing to finite
numbers; skips the row when the primary voltage `|v1| > 1e30`; with a third
token that parses to a finite number of magnitude `< 1e30` the stored voltage
is the mean `(v1+v2)/2`, otherwise it stays `v1`. -/
def parseRow (parts : List (Option ℚ)) : Option DataPoint :=
  if 2 ≤ parts.length then
    match parts.getD 0 none, parts.getD 1 none with
    | some t, some v1 =>
      if clipLimit < |v1| then none
      else
        let voltage :=
          if 3 ≤ parts.length then
            match parts.getD 2 none with
            | some v2 => if |v2| < clipLimit then (v1 + v2) / 2 else v1
            | none => v1
          else v1
        some ⟨t, voltage⟩
    | _, _ => none
  else none

/-- The parser over a whole file, at token level: one `Option DataPoint` per
data line, malformed lines silently dropped (`parseFileContent`). -/
def parseFileContent (lines : List (List (Option ℚ))) : List DataPoint :=
  lines.filterMap parseRow

/-- Centered moving-average filter (`smoothSignal`, lines 73–86): for sample
`i` it averages the samples in `[i − ⌊W/2⌋, i + ⌊W/2⌋]` clamped to the series
bounds; `W ≤ 1` returns the input list unchanged.  `i - windowSize / 2` is
natural subtraction, which is exactly `Math.max(0, i - Math.floor(w/2))`. -/
def smoothSignal (values : List ℚ) (windowSize : ℕ) : List ℚ :=
  if windowSize ≤ 1 then values
  else
    (List.range values.length).map (fun i =>
      let s := i - windowSize / 2
      let e := min values.length (i + windowSize / 2 + 1)
      ((List.range' s (e - s)).map (fun j => values.getD j 0)).sum / ((e - s : ℕ) : ℚ))

/-- Start of the clamped averaging window for sample `i` and window `w`. -/
def windowStart (i w : ℕ) : ℕ := i - w / 2

/-- End (exclusive) of the clamped averaging window for sample `i`. -/
def windowEnd (len i w : ℕ) : ℕ := min len (i + w / 2 + 1)

/-- Baseline / DC-offset estimate (step 3 of `processSignal`, lines 107–109):
mean of the last `max(⌊0.20·n⌋, 10)` samples.  `n * 20 / 100` in natural
arithmetic equals `⌊n · 0.20⌋`. -/
def tailBaseline (u : List ℚ) : ℚ :=
  let tailSampleCount := max (u.length * 20 / 100) 10
  let tailData := u.drop (u.length - tailSampleCount)
  tailData.sum / (tailData.length : ℚ)

/-- Raw rising-crossing detection (step 4 of `processSignal`, lines 112–125):
for every `i < n − 1` with `u[i] ≤ m < u[i+1]`, record the linearly
interpolated crossing time and the index `i`. -/
def detectRawCrossings (t_raw u : List ℚ) (meanVoltage : ℚ) : List Crossing :=
  (List.range (u.length - 1)).filterMap (fun i =>
    let y1 := u.getD i 0
    let y2 := u.getD (i + 1) 0
    if y1 ≤ meanVoltage ∧ meanVoltage < y2 then
      some ⟨t_raw.getD i 0 + (meanVoltage - y1) / (y2 - y1) * (t_raw.getD (i + 1) 0 - t_raw.getD i 0), i⟩
    else none)

/-- Inner loop of period locking (lines 136–148): starting from the last
accepted crossing, keep accepting while the period against the last accepted
crossing deviates from `Tref` by at most `Tref · p`, and stop at the first
violation. -/
def lockLoop (Tref p : ℚ) (lastValid : Crossing) : List Crossing → List Crossing
  | [] => []
  | c :: rest =>
    if |c.t - lastValid.t - Tref| ≤ Tref * p then c :: lockLoop Tref p c rest
    else []

/-- Period locking (step 5 of `processSignal`, lines 128–149): fewer than two
raw crossings give the empty valid set; otherwise the first two raw crossings
are accepted, define `Tref`, and the rest are filtered by `lockLoop`. -/
def validCrossings (rawCs : List Crossing) (periodTolerancePct : ℚ) : List Crossing :=
  match rawCs with
  | c0 :: c1 :: rest => c0 :: c1 :: lockLoop (c1.t - c0.t) periodTolerancePct c1 rest
  | _ => []

/-- Peak extraction (step 6 of `processSignal`, lines 152–173): in each
interval between consecutive valid crossings, scan the smoothed samples from
`startIdx` to `endIdx` inclusive for the first maximum (strict improvement,
starting from `-Infinity`, modelled by the `Option` accumulator), and keep it
only if it strictly exceeds the baseline. -/
def extractPeaks (t_raw u : List ℚ) (validCs : List Crossing) (meanVoltage : ℚ) : List Peak :=
  if validCs.length < 2 then []
  else
    (List.range (validCs.length - 1)).filterMap (fun i =>
      let startIdx := (validCs.getD i default).idx
      let endIdx := (validCs.getD (i + 1) default).idx
      let best := (List.range' startIdx (endIdx + 1 - startIdx)).foldl
        (fun acc j =>
          match acc with
          | none => some (u.getD j 0, j)
          | some (mv, mi) => if mv < u.getD j 0 then some (u.getD j 0, j) else some (mv, mi))
        none
      match best with
      | some (mv, mi) => if meanVoltage < mv then some ⟨t_raw.getD mi 0, mv⟩ else none
      | none => none)

/-- Average period (step 7 of `processSignal`, lines 176–183): mean of the
successive differences of the valid crossing times, `0` with fewer than two
valid crossings. -/
def averagePeriod (validCs : List Crossing) : ℚ :=
  if validCs.length < 2 then 0
  else
    ((List.range (validCs.length - 1)).map
      (fun i => (validCs.getD (i + 1) default).t - (validCs.getD i default).t)).sum
      / ((validCs.length - 1 : ℕ) : ℚ)

/-- Output record of `processSignal` (lines 202–211), all series in the
normalised coordinate frame. -/
structure ProcessedData where
  t : List ℚ
  u_raw : List ℚ
  u_smooth : List ℚ
  peaks : List Peak
  zeroCrossings : List Crossing
  meanVoltage : ℚ
  avgPeriodUs : ℚ
  isInverted : Bool
  deriving DecidableEq, Repr

/-- The full processing pipeline `processSignal` (lines 88–212): `none` on
empty input, otherwise µs time rescaling, optional inversion, smoothing, tail
baseline, raw crossing detection, period locking, peak extraction, average
period, and normalisation of every series to the first valid crossing and the
baseline.  The returned `meanVoltage` is the literal `0`. -/
def processSignal (rawData : List DataPoint) (smoothingWindow : ℕ)
    (periodTolerancePct : ℚ) (invert : Bool) : Option ProcessedData :=
  if rawData.length = 0 then none
  else
    let t_raw := rawData.map (fun d => d.time * 1000000)
    let u0 := rawData.map (fun d => d.voltage)
    let u_original := if invert then u0.map (fun v => -v) else u0
    let u_processed := smoothSignal u_original smoothingWindow
    let meanVoltage := tailBaseline u_processed
    let rawCs := detectRawCrossings t_raw u_processed meanVoltage
    let validCs := validCrossings rawCs periodTolerancePct
    let pks := extractPeaks t_raw u_processed validCs meanVoltage
    let avgPeriodUs := averagePeriod validCs
    let t_offset :=
      if 0 < validCs.length then (validCs.headD default).t
      else if 0 < t_raw.length then t_raw.headD 0
      else 0
    let u_offset := meanVoltage
    some ⟨t_raw.map (fun x => x - t_offset),
          u_original.map (fun u => u - u_offset),
          u_processed.map (fun u => u - u_offset),
          pks.map (fun pk => ⟨pk.x - t_offset, pk.y - u_offset⟩),
          validCs.map (fun c => ⟨c.t - t_offset, c.idx⟩),
          0, avgPeriodUs, invert⟩

/-- Peaks strictly above the fixed baseline `C`; only these contribute to the
log-linear regression (the accumulation loop of `fitExponentialCurve` adds a
peak to every sum exactly when `p.y > C`). -/
def qualifyingPeaks (peaks : List Peak) (C : ℚ) : List Peak :=
  peaks.filter (fun pk => C < pk.y)

/-- Regression sum `Σt` over a peak list. -/
def sumT (q : List Peak) : ℚ := (q.map Peak.x).sum

/-- Regression sum `Σt²` over a peak list. -/
def sumT2 (q : List Peak) : ℚ := (q.map (fun pk => pk.x * pk.x)).sum

/-- Regression sum `Σ ln(y − C)` over a peak list. -/
noncomputable def sumLnY (q : List Peak) (C : ℚ) : ℝ :=
  (q.map (fun pk => Real.log ((pk.y : ℝ) - (C : ℝ)))).sum

/-- Regression sum `Σ t·ln(y − C)` over a peak list. -/
noncomputable def sumTLnY (q : List Peak) (C : ℚ) : ℝ :=
  (q.map (fun pk => (pk.x : ℝ) * Real.log ((pk.y : ℝ) - (C : ℝ)))).sum

/-- Least-squares denominator `n·Σt² − (Σt)²` (line 239). -/
def lsqDenominator (q : List Peak) : ℚ :=
  (q.length : ℚ) * sumT2 q - sumT q * sumT q

/-- Least-squares slope `β = (n·Σ(t·lnY) − Σt·ΣlnY) / (n·Σt² − (Σt)²)`
(line 242). -/
noncomputable def lsqBeta (q : List Peak) (C : ℚ) : ℝ :=
  ((q.length : ℝ) * sumTLnY q C - (sumT q : ℝ) * sumLnY q C) / ((lsqDenominator q : ℚ) : ℝ)

/-- Least-squares intercept `ln A = (ΣlnY − β·Σt) / n` (line 243). -/
noncomputable def lsqLnA (q : List Peak) (C : ℚ) : ℝ :=
  (sumLnY q C - lsqBeta q C * (sumT q : ℝ)) / (q.length : ℝ)

/-- Envelope fitter `fitExponentialCurve` (lines 214–247): `none` with fewer
than 2 peaks, fewer than 2 qualifying peaks (`y > C`), or a zero least-squares
denominator; otherwise the log-linear least-squares fit over exactly the
qualifying peaks, with `C` fixed to the `meanVoltage` argument. -/
noncomputable def fitExponentialCurve (peaks : List Peak) (meanVoltage : ℚ) : Option FitParams :=
  if peaks.length < 2 then none
  else if (qualifyingPeaks peaks meanVoltage).length < 2 then none
  else if lsqDenominator (qualifyingPeaks peaks meanVoltage) = 0 then none
  else
    some ⟨Real.exp (lsqLnA (qualifyingPeaks peaks meanVoltage) meanVoltage),
          lsqBeta (qualifyingPeaks peaks meanVoltage) meanVoltage, meanVoltage⟩

/-- Metric derivation from a fit (lines 275–287 of `App`): `f_hz` from the
average period, `λ = |β|·T`, `β` rescaled to per-second units, cycle count
from the peak list length. -/
noncomputable def deriveMetrics (fit : FitParams) (avgPeriodUs : ℚ) (peakCount : ℕ) :
    SignalMetrics :=
  let f_hz : ℚ := 1 / (avgPeriodUs * (1 / 1000000))
  let lambda : ℝ := |fit.beta| * (avgPeriodUs : ℝ)
  let betaSeconds : ℝ := lambda / ((avgPeriodUs : ℝ) * (1 / 1000000))
  ⟨f_hz / 1000, betaSeconds, lambda, avgPeriodUs, peakCount⟩

/-- Gate in front of metric derivation (line 275): metrics exist only when a
fit exists and the average period is positive. -/
noncomputable def deriveMetricsOpt (fit : Option FitParams) (avgPeriodUs : ℚ)
    (peakCount : ℕ) : Option SignalMetrics :=
  match fit with
  | some f => if 0 < avgPeriodUs then some (deriveMetrics f avgPeriodUs peakCount) else none
  | none => none

/-- The fit exactly as `App` computes it (`fitResults` memo, lines 267–272):
`processSignal` output gated on at least two peaks, then
`fitExponentialCurve(peaks, meanVoltage)` on the *normalised* peak list and
the *normalised* `meanVoltage` field. -/
noncomputable def appFit (rawData : List DataPoint) (w : ℕ) (p : ℚ) (inv : Bool) :
    Option FitParams :=
  (processSignal rawData w p inv).elim none
    (fun pd => if pd.peaks.length < 2 then none else fitExponentialCurve pd.peaks pd.meanVoltage)

/-! ### Concrete example inputs used by witnesses and counterexamples -/

/-- A 16-sample synthetic trace: three full oscillation cycles of amplitude 2
around a DC level of 1 (period 2 µs), followed by a settled tail at exactly 1 V.
Sample times are `k·1e-6` seconds, i.e. `k` µs after rescaling. -/
def exTrace : List DataPoint :=
  [⟨0, 0⟩, ⟨1/1000000, 2⟩, ⟨2/1000000, 0⟩, ⟨3/1000000, 2⟩, ⟨4/1000000, 0⟩, ⟨5/1000000, 2⟩,
   ⟨6/1000000, 1⟩, ⟨7/1000000, 1⟩, ⟨8/1000000, 1⟩, ⟨9/1000000, 1⟩, ⟨10/1000000, 1⟩,
   ⟨11/1000000, 1⟩, ⟨12/1000000, 1⟩, ⟨13/1000000, 1⟩, ⟨14/1000000, 1⟩, ⟨15/1000000, 1⟩]

/-- The processed output of `exTrace` with window 1, tolerance 10 %, no
inversion: baseline 1 V (tail mean), crossings at 0.5/2.5/4.5 µs (normalised to
0/2/4), two peaks, average period 2 µs. -/
def pdEx : ProcessedData :=
  ⟨[-1/2, 1/2, 3/2, 5/2, 7/2, 9/2, 11/2, 13/2, 15/2, 17/2, 19/2, 21/2, 23/2, 25/2, 27/2, 29/2],
   [-1, 1, -1, 1, -1, 1, 0, 0, 0, 0, 0, 0, 0, 0, 0, 0],
   [-1, 1, -1, 1, -1, 1, 0, 0, 0, 0, 0, 0, 0, 0, 0, 0],
   [⟨1/2, 1⟩, ⟨5/2, 1⟩],
   [⟨0, 0⟩, ⟨2, 2⟩, ⟨4, 4⟩],
   0, 2, false⟩

set_option maxHeartbeats 2000000 in
/-- Running the pipeline on `exTrace` yields exactly `pdEx`. -/
lemma processSignal_exTrace : processSignal exTrace 1 (1/10) false = some pdEx := by
  norm_num [processSignal, exTrace, pdEx, smoothSignal, tailBaseline, detectRawCrossings,
    validCrossings, lockLoop, extractPeaks, averagePeriod, List.range_succ, List.range',
    List.filterMap_cons]

/-! ### Period locking (helper lemmas) -/

/-- The locking loop never reorders or skips: its output is a prefix of its
input. -/
lemma lockLoop_isPrefix (Tref p : ℚ) (lastValid : Crossing) (rest : List Crossing) :
    lockLoop Tref p lastValid rest <+: rest := by
  induction rest generalizing lastValid with
  | nil => simp [lockLoop]
  | cons c rest ih =>
    rw [lockLoop]
    split
    · obtain ⟨tl, htl⟩ := ih c
      exact ⟨tl, by simp [htl]⟩
    · exact List.nil_prefix

/-- Every crossing the locking loop accepts satisfied the tolerance test
against the crossing accepted just before it. -/
lemma lockLoop_accepted (Tref p : ℚ) :
    ∀ (rest : List Crossing) (lastValid : Crossing) (i : ℕ),
      i < (lockLoop Tref p lastValid rest).length →
      |(rest.getD i default).t - ((lastValid :: rest).getD i default).t - Tref| ≤ Tref * p := by
  intro rest
  induction rest with
  | nil => intro lastValid i h; simp [lockLoop] at h
  | cons c rest ih =>
    intro lastValid i h
    rw [lockLoop] at h
    by_cases hc : |c.t - lastValid.t - Tref| ≤ Tref * p
    · rw [if_pos hc] at h
      cases i with
      | zero => simpa using hc
      | succ i =>
        simp only [List.length_cons, Nat.succ_lt_succ_iff] at h
        simpa [List.getD_cons_succ] using ih c i h
    · rw [if_neg hc] at h
      simp at h

/-- When the locking loop stops early, the first crossing it did not accept
violated the tolerance test against the last accepted crossing. -/
lemma lockLoop_stops (Tref p : ℚ) :
    ∀ (rest : List Crossing) (lastValid : Crossing),
      (lockLoop Tref p lastValid rest).length < rest.length →
      ¬ |(rest.getD (lockLoop Tref p lastValid rest).length default).t -
          ((lastValid :: rest).getD (lockLoop Tref p lastValid rest).length default).t -
          Tref| ≤ Tref * p := by
  intro rest
  induction rest with
  | nil => intro lastValid h; simp [lockLoop] at h
  | cons c rest ih =>
    intro lastValid h
    by_cases hc : |c.t - lastValid.t - Tref| ≤ Tref * p
    · rw [lockLoop, if_pos hc] at h ⊢
      simp only [List.length_cons, Nat.succ_lt_succ_iff] at h
      simpa [List.getD_cons_succ] using ih c h
    · rw [lockLoop, if_neg hc] at h ⊢
      simpa using hc

/-- The valid crossings are a prefix of the raw crossings. -/
lemma validCrossings_isPrefix (rawCs : List Crossing) (p : ℚ) :
    validCrossings rawCs p <+: rawCs := by
  match rawCs with
  | [] => simp [validCrossings]
  | [c] => simp [validCrossings]
  | c0 :: c1 :: rest =>
    obtain ⟨tl, htl⟩ := lockLoop_isPrefix (c1.t - c0.t) p c1 rest
    exact ⟨tl, by simp [validCrossings, htl]⟩

/-- C1.  Period locking: with fewer than 2 raw crossings the valid set is
empty; otherwise the first two raw crossings are accepted (the valid set is a
prefix of length ≥ 2) and, with `Tref` the gap between the first two raw
crossings, every later accepted crossing deviates from `Tref` (measured
against the previous accepted crossing) by at most `Tref·p`, while the first
crossing after the valid run, if any, violates that bound — the run stops
permanently at the first violation.  For crossing times `[0,10,20,31,42]` with
5 % tolerance, exactly the first three crossings are valid. -/
theorem period_locking_spec :
    (∀ (rawCs : List Crossing) (p : ℚ),
      (rawCs.length < 2 → validCrossings rawCs p = []) ∧
      (2 ≤ rawCs.length →
        2 ≤ (validCrossings rawCs p).length ∧
        validCrossings rawCs p <+: rawCs ∧
        (∀ i, 2 ≤ i → i < (validCrossings rawCs p).length →
          |(rawCs.getD i default).t - (rawCs.getD (i - 1) default).t -
              ((rawCs.getD 1 default).t - (rawCs.getD 0 default).t)| ≤
            ((rawCs.getD 1 default).t - (rawCs.getD 0 default).t) * p) ∧
        ((validCrossings rawCs p).length < rawCs.length →
          ¬ |(rawCs.getD (validCrossings rawCs p).length default).t -
                (rawCs.getD ((validCrossings rawCs p).length - 1) default).t -
                ((rawCs.getD 1 default).t - (rawCs.getD 0 default).t)| ≤
              ((rawCs.getD 1 default).t - (rawCs.getD 0 default).t) * p))) ∧
    validCrossings [⟨0, 0⟩, ⟨10, 1⟩, ⟨20, 2⟩, ⟨31, 3⟩, ⟨42, 4⟩] (1/20) =
      [⟨0, 0⟩, ⟨10, 1⟩, ⟨20, 2⟩] := by
  constructor
  · intro rawCs p
    constructor
    · intro h
      match rawCs with
      | [] => simp [validCrossings]
      | [c] => simp [validCrossings]
      | c0 :: c1 :: rest => simp at h; omega
    · intro h
      match rawCs with
      | [] => simp at h
      | [c] => simp at h
      | c0 :: c1 :: rest =>
        have hval : validCrossings (c0 :: c1 :: rest) p =
            c0 :: c1 :: lockLoop (c1.t - c0.t) p c1 rest := rfl
        refine ⟨by simp [hval], validCrossings_isPrefix _ p, ?_, ?_⟩
        · intro i h2 hi
          obtain ⟨j, rfl⟩ : ∃ j, i = j + 2 := ⟨i - 2, by omega⟩
          rw [hval] at hi
          simp only [List.length_cons, Nat.add_lt_add_iff_right] at hi
          have := lockLoop_accepted (c1.t - c0.t) p rest c1 j hi
          simpa [List.getD_cons_succ, List.getD_cons_zero, Nat.add_sub_cancel] using this
        · intro hlen
          rw [hval] at hlen ⊢
          simp only [List.length_cons, Nat.add_lt_add_iff_right] at hlen
          have := lockLoop_stops (c1.t - c0.t) p rest c1 hlen
          simpa [List.getD_cons_succ, List.getD_cons_zero, Nat.add_sub_cancel] using this
  · norm_num [validCrossings, lockLoop]

/-- C1 witness: the concrete period-locking run of the claim, extracted from
`period_locking_spec`. -/
theorem period_locking_spec_example :
    validCrossings [⟨0, 0⟩, ⟨10, 1⟩, ⟨20, 2⟩, ⟨31, 3⟩, ⟨42, 4⟩] (1/20) =
      [⟨0, 0⟩, ⟨10, 1⟩, ⟨20, 2⟩] :=
  period_locking_spec.2

/-! ### Parser claims -/

/-- C2 counterexample: a 3-column row whose third column is a clipped value
(magnitude greater than `1e30`) is NOT excluded — the parser keeps it, storing
the second column's voltage. -/
theorem clipped_third_column_row_kept :
    clipLimit < |(2 * clipLimit : ℚ)| ∧
    parseFileContent [[some 0, some 1, some (2 * clipLimit)]] = [⟨0, 1⟩] := by
  constructor
  · norm_num [clipLimit]
  · have h : parseRow [some 0, some 1, some (2 * clipLimit)] = some ⟨0, 1⟩ := by
      norm_num [parseRow, clipLimit]
    simp [parseFileContent, List.filterMap_cons, h]

/-- C2 (amended).  Clipping filter on the primary voltage column: any row
whose second token parses to a value of magnitude greater than `1e30` is
excluded from the parser's result, regardless of how many further columns the
row has. -/
theorem second_column_clipping_excludes (t v1 : ℚ) (rest : List (Option ℚ))
    (lines : List (List (Option ℚ))) (hv : clipLimit < |v1|) :
    parseRow (some t :: some v1 :: rest) = none ∧
    parseFileContent ((some t :: some v1 :: rest) :: lines) = parseFileContent lines := by
  have h1 : parseRow (some t :: some v1 :: rest) = none := by
    rw [parseRow, if_pos (by simp)]
    simp only [List.getD_cons_zero, List.getD_cons_succ]
    rw [if_pos hv]
  exact ⟨h1, by simp [parseFileContent, List.filterMap_cons, h1]⟩

/-- C2 witness: a clipped 3-column row (second column `2e30`) is dropped. -/
theorem second_column_clipping_excludes_witness :
    parseRow [some 0, some (2 * clipLimit), some 5] = none ∧
    parseFileContent [[some 0, some (2 * clipLimit), some 5]] = parseFileContent [] :=
  second_column_clipping_excludes 0 (2 * clipLimit) [some 5] [] (by norm_num [clipLimit])

/-- C10.  Parser fallback: a row of ≥ 3 tokens whose first two parse to finite
numbers with `|v1| ≤ 1e30` is kept with voltage `v1` alone whenever the third
token does not parse to a finite number of magnitude strictly below `1e30`
(non-numeric, or magnitude ≥ `1e30`) — the parser neither averages nor skips. -/
theorem parser_third_column_fallback (t v1 : ℚ) (third : Option ℚ)
    (rest : List (Option ℚ)) (hv1 : |v1| ≤ clipLimit)
    (hthird : ∀ v2, third = some v2 → ¬ |v2| < clipLimit) :
    parseRow (some t :: some v1 :: third :: rest) = some ⟨t, v1⟩ := by
  rw [parseRow, if_pos (by simp)]
  simp only [List.getD_cons_zero, List.getD_cons_succ]
  rw [if_neg (not_lt.mpr hv1)]
  cases third with
  | none => simp
  | some v2 =>
    have h2 := hthird v2 rfl
    simp [if_neg h2]

/-- C10 witness: a third column of exactly `1e30` (not strictly below the
clipping limit) triggers the 2-column fallback. -/
theorem parser_third_column_fallback_witness :
    parseRow [some 0, some 1, some clipLimit] = some ⟨0, 1⟩ :=
  parser_third_column_fallback 0 1 (some clipLimit) [] (by norm_num [clipLimit])
    (by intro v2 h; rw [Option.some.injEq] at h; subst h; norm_num [clipLimit])

/-! ### Empty-input short circuit -/

/-- C8.  When the parser produces zero samples, `processSignal` returns `none`
immediately: no smoothing, baseline estimation, crossing detection, peak
extraction, fitting or metric derivation is performed on the empty trace. -/
theorem empty_input_short_circuit (lines : List (List (Option ℚ)))
    (w : ℕ) (p : ℚ) (inv : Bool) (h : parseFileContent lines = []) :
    processSignal (parseFileContent lines) w p inv = none := by
  rw [h]
  rfl

/-- C8 witness: a file whose only line has a single token parses to zero
samples, and the pipeline returns `none` on it. -/
theorem empty_input_short_circuit_witness :
    processSignal (parseFileContent [[some 0]]) 3 (1/10) true = none :=
  empty_input_short_circuit [[some 0]] 3 (1/10) true (by simp [parseFileContent, parseRow])

/-! ### Smoothing -/

/-- C9.  Smoothing totality and shape: for window `W ≥ 1` the output has the
input's length; element `i` is the mean of the input over
`[i − ⌊W/2⌋, i + ⌊W/2⌋]` clamped to `[0, L)` — a window that contains `i`,
stays in bounds, and is never empty (so the divisor is never zero) — and
`W = 1` returns the input unchanged. -/
theorem smoothing_total_shape (values : List ℚ) (w : ℕ) (hw : 1 ≤ w) :
    (smoothSignal values w).length = values.length ∧
    (w = 1 → smoothSignal values w = values) ∧
    (∀ i, i < values.length →
      windowStart i w ≤ i ∧ i < windowEnd values.length i w ∧
      windowEnd values.length i w ≤ values.length ∧
      0 < windowEnd values.length i w - windowStart i w ∧
      (smoothSignal values w).getD i 0 =
        ((List.range' (windowStart i w) (windowEnd values.length i w - windowStart i w)).map
            (fun j => values.getD j 0)).sum /
          ((windowEnd values.length i w - windowStart i w : ℕ) : ℚ)) := by
  by_cases hw1 : w ≤ 1
  · have hw0 : w = 1 := le_antisymm hw1 hw
    subst hw0
    rw [smoothSignal, if_pos le_rfl]
    refine ⟨rfl, fun _ => rfl, ?_⟩
    intro i hi
    have hs : windowStart i 1 = i := by simp [windowStart]
    have he : windowEnd values.length i 1 = i + 1 := by
      simp only [windowEnd]
      omega
    refine ⟨by omega, by omega, by omega, by omega, ?_⟩
    rw [hs, he]
    simp
  · rw [smoothSignal, if_neg hw1]
    refine ⟨by simp, fun h => absurd h (by omega), ?_⟩
    intro i hi
    refine ⟨Nat.sub_le _ _, by simp [windowEnd]; omega, min_le_left _ _, ?_, ?_⟩
    · have : windowStart i w ≤ i := Nat.sub_le _ _
      have : i < windowEnd values.length i w := by simp [windowEnd]; omega
      omega
    · have hlen : i < ((List.range values.length).map (fun i =>
          ((List.range' (i - w / 2) (min values.length (i + w / 2 + 1) - (i - w / 2))).map
              (fun j => values.getD j 0)).sum /
            ((min values.length (i + w / 2 + 1) - (i - w / 2) : ℕ) : ℚ))).length := by
        simpa using hi
      rw [List.getD_eq_getElem _ _ hlen, List.getElem_map, List.getElem_range]
      rfl

/-- C9 witness: smoothing a 3-sample series with window 2 keeps the length. -/
theorem smoothing_total_shape_witness :
    (smoothSignal [1, 2, 3] 2).length = ([1, 2, 3] : List ℚ).length :=
  (smoothing_total_shape [1, 2, 3] 2 (by norm_num)).1

/-! ### Envelope fitter -/

/-- The qualifying-peak filter can only shrink the peak list. -/
lemma qualifyingPeaks_length_le (peaks : List Peak) (C : ℚ) :
    (qualifyingPeaks peaks C).length ≤ peaks.length :=
  List.length_filter_le _ _

/-- The baseline parameter comes back verbatim in any successful fit. -/
lemma fit_some_C (peaks : List Peak) (C : ℚ) (fp : FitParams)
    (h : fitExponentialCurve peaks C = some fp) : fp.C = C := by
  rw [fitExponentialCurve] at h
  split_ifs at h
  rw [Option.some.injEq] at h
  subst h
  rfl

/-- C4.  Envelope-fitter contract: the fit is `none` exactly when fewer than 2
peaks lie strictly above the baseline or the least-squares denominator
`n·Σt² − (Σt)²` is exactly 0; any returned fit has the closed-form
least-squares slope and intercept over exactly the qualifying peaks and the
fixed baseline `C`, and its denominator is provably nonzero (no division by
zero is ever performed). -/
theorem fit_envelope_contract (peaks : List Peak) (C : ℚ) :
    (fitExponentialCurve peaks C = none ↔
      (qualifyingPeaks peaks C).length < 2 ∨ lsqDenominator (qualifyingPeaks peaks C) = 0) ∧
    (∀ fp, fitExponentialCurve peaks C = some fp →
      lsqDenominator (qualifyingPeaks peaks C) ≠ 0 ∧
      fp.beta = lsqBeta (qualifyingPeaks peaks C) C ∧
      fp.A = Real.exp (lsqLnA (qualifyingPeaks peaks C) C) ∧
      fp.C = C) := by
  rw [fitExponentialCurve]
  split_ifs with h1 h2 h3
  · exact ⟨iff_of_true rfl (Or.inl (lt_of_le_of_lt (qualifyingPeaks_length_le peaks C) h1)),
      by simp⟩
  · exact ⟨iff_of_true rfl (Or.inl h2), by simp⟩
  · exact ⟨iff_of_true rfl (Or.inr h3), by simp⟩
  · refine ⟨iff_of_false (by simp) (not_or.mpr ⟨h2, h3⟩), ?_⟩
    intro fp h
    rw [Option.some.injEq] at h
    subst h
    exact ⟨h3, rfl, rfl, rfl⟩

/-- C4 witness: two peaks at the same time give a zero denominator and no
fit. -/
theorem fit_envelope_contract_witness :
    fitExponentialCurve [⟨0, 1⟩, ⟨0, 2⟩] 0 = none :=
  (fit_envelope_contract [⟨0, 1⟩, ⟨0, 2⟩] 0).1.mpr
    (Or.inr (by norm_num [qualifyingPeaks, lsqDenominator, sumT, sumT2]))

/-! ### The App-level fit and the baseline parameter -/

/-- The `meanVoltage` field of any pipeline output is the literal `0`. -/
lemma processSignal_meanVoltage (rawData : List DataPoint) (w : ℕ) (p : ℚ) (inv : Bool)
    (pd : ProcessedData) (h : processSignal rawData w p inv = some pd) :
    pd.meanVoltage = 0 := by
  by_cases h0 : rawData.length = 0
  · rw [processSignal, if_pos h0] at h
    exact absurd h (by simp)
  · rw [processSignal, if_neg h0] at h
    simp only [Option.some.injEq] at h
    subst h
    rfl

/-- Structure of a successful App-level fit: it comes from a pipeline output
with at least two peaks, fitted against that output's `meanVoltage` field. -/
lemma appFit_some (rawData : List DataPoint) (w : ℕ) (p : ℚ) (inv : Bool)
    (fp : FitParams) (h : appFit rawData w p inv = some fp) :
    ∃ pd, processSignal rawData w p inv = some pd ∧ ¬ pd.peaks.length < 2 ∧
      fitExponentialCurve pd.peaks pd.meanVoltage = some fp := by
  rw [appFit] at h
  cases hps : processSignal rawData w p inv with
  | none => rw [hps, Option.elim_none] at h; exact absurd h (by simp)
  | some pd =>
    rw [hps, Option.elim_some] at h
    by_cases hlen : pd.peaks.length < 2
    · rw [if_pos hlen] at h
      exact absurd h (by simp)
    · rw [if_neg hlen] at h
      exact ⟨pd, rfl, hlen, h⟩

set_option maxHeartbeats 1000000 in
/-- The App-level fit on `exTrace` succeeds and returns `A = 1`, `β = 0`,
`C = 0` (the two normalised peaks sit exactly on the constant envelope 1). -/
lemma appFit_exTrace : appFit exTrace 1 (1/10) false = some ⟨1, 0, 0⟩ := by
  rw [appFit, processSignal_exTrace, Option.elim_some]
  rw [if_neg (by norm_num [pdEx])]
  have hq : qualifyingPeaks pdEx.peaks pdEx.meanVoltage = [⟨1/2, 1⟩, ⟨5/2, 1⟩] := by
    norm_num [qualifyingPeaks, pdEx]
  rw [fitExponentialCurve, if_neg (by norm_num [pdEx]), hq]
  have hden : lsqDenominator [(⟨1/2, 1⟩ : Peak), ⟨5/2, 1⟩] = 4 := by
    norm_num [lsqDenominator, sumT, sumT2]
  have hlny : sumLnY [(⟨1/2, 1⟩ : Peak), ⟨5/2, 1⟩] pdEx.meanVoltage = 0 := by
    norm_num [sumLnY, pdEx, Real.log_one]
  have htlny : sumTLnY [(⟨1/2, 1⟩ : Peak), ⟨5/2, 1⟩] pdEx.meanVoltage = 0 := by
    norm_num [sumTLnY, pdEx, Real.log_one]
  have hbeta : lsqBeta [(⟨1/2, 1⟩ : Peak), ⟨5/2, 1⟩] pdEx.meanVoltage = 0 := by
    rw [lsqBeta, hlny, htlny]
    norm_num
  have hlna : lsqLnA [(⟨1/2, 1⟩ : Peak), ⟨5/2, 1⟩] pdEx.meanVoltage = 0 := by
    rw [lsqLnA, hlny, hbeta]
    norm_num
  rw [if_neg (by norm_num), if_neg (by rw [hden]; norm_num), hbeta, hlna]
  norm_num [Real.exp_zero, pdEx]

/-- C3 counterexample: on the concrete trace `exTrace` the pipeline's
un-normalised baseline estimate (the tail mean of the smoothed series) is
`1 V`, yet the fit that the application computes carries `C = 0` — the
returned `FitParams.C` is NOT the un-normalised baseline estimate. -/
theorem fit_C_not_unnormalized_baseline :
    ∃ fp, appFit exTrace 1 (1/10) false = some fp ∧
      tailBaseline (smoothSignal (List.map (fun d => d.voltage) exTrace) 1) = 1 ∧
      fp.C ≠ tailBaseline (smoothSignal (List.map (fun d => d.voltage) exTrace) 1) := by
  have hb : tailBaseline (smoothSignal (List.map (fun d => d.voltage) exTrace) 1) = 1 := by
    norm_num [tailBaseline, smoothSignal, exTrace]
  refine ⟨⟨1, 0, 0⟩, appFit_exTrace, hb, ?_⟩
  rw [hb]
  norm_num

/-- C3 (amended).  The `C` of every fit the application produces equals the
*normalised* baseline — the `meanVoltage` field of the processed data, which
is `0` by construction — rather than the un-normalised tail-mean estimate;
it is fixed (passed through verbatim), not fitted. -/
theorem fit_C_is_normalized_baseline (rawData : List DataPoint) (w : ℕ) (p : ℚ)
    (inv : Bool) (fp : FitParams) (h : appFit rawData w p inv = some fp) :
    fp.C = 0 ∧ ∀ pd, processSignal rawData w p inv = some pd → fp.C = pd.meanVoltage := by
  obtain ⟨pd, hps, hlen, hfit⟩ := appFit_some rawData w p inv fp h
  have hC := fit_some_C pd.peaks pd.meanVoltage fp hfit
  have hm := processSignal_meanVoltage rawData w p inv pd hps
  refine ⟨by rw [hC, hm], ?_⟩
  intro pd' hps'
  rw [hps, Option.some.injEq] at hps'
  subst hps'
  rw [hC]

/-- C3 witness: the amended claim applied to the concrete `exTrace` run. -/
theorem fit_C_is_normalized_baseline_witness : (FitParams.mk 1 0 0).C = 0 :=
  (fit_C_is_normalized_baseline exTrace 1 (1/10) false ⟨1, 0, 0⟩ appFit_exTrace).1

/-! ### Metric derivation -/

/-- C5.  Whenever a fit exists and `avgPeriodUs > 0`, the derived metrics are
`frequencyKhz = (1/(avgPeriodUs·1e-6))/1000`, `λ = |β|·avgPeriodUs`,
damping coefficient `β[s⁻¹] = λ/(avgPeriodUs·1e-6)`, and the valid-cycle
count is the number of peaks; for `avgPeriodUs = 1000` and `β = −0.002` per µs
this gives `λ = 2` and `frequencyKhz = 1`. -/
theorem metric_derivation (f : FitParams) (avgP : ℚ) (n : ℕ) (h : 0 < avgP) :
    ∃ m, deriveMetricsOpt (some f) avgP n = some m ∧
      m.frequencyKhz = (1 / (avgP * (1 / 1000000))) / 1000 ∧
      m.lambda = |f.beta| * (avgP : ℝ) ∧
      m.beta = m.lambda / ((avgP : ℝ) * (1 / 1000000)) ∧
      m.periodUs = avgP ∧
      m.validCycles = n ∧
      (avgP = 1000 → f.beta = -(1/500) → m.lambda = 2 ∧ m.frequencyKhz = 1) := by
  refine ⟨deriveMetrics f avgP n, ?_, rfl, rfl, rfl, rfl, rfl, ?_⟩
  · rw [deriveMetricsOpt, if_pos h]
  · rintro rfl hb
    constructor
    · show |f.beta| * ((1000 : ℚ) : ℝ) = 2
      rw [hb, abs_neg, abs_of_pos (by norm_num)]
      norm_num
    · norm_num [deriveMetrics]

/-- C5 witness: the concrete metric consistency check of the claim. -/
theorem metric_derivation_witness :
    ∃ m, deriveMetricsOpt (some ⟨0, -(1/500), 0⟩) 1000 7 = some m ∧
      m.lambda = 2 ∧ m.frequencyKhz = 1 := by
  obtain ⟨m, hm, -, -, -, -, -, hconc⟩ :=
    metric_derivation ⟨0, -(1/500), 0⟩ 1000 7 (by norm_num)
  obtain ⟨h2, h1⟩ := hconc rfl rfl
  exact ⟨m, hm, h2, h1⟩

/-! ### Normalisation -/

/-- C6.  Normalisation invariant: every non-empty pipeline run returns data
whose `meanVoltage` is the literal `0` (not recomputed); the first valid
crossing, when one exists, sits at normalised time exactly `0`; and every
returned series — time axis, raw and smoothed voltages, peaks, and crossings —
is the corresponding un-normalised stage output shifted by the time offset
(the first valid crossing's time, when a valid crossing exists) and by the
baseline voltage. -/
theorem normalization_invariant (rawData : List DataPoint) (w : ℕ) (p : ℚ) (inv : Bool)
    (h : rawData ≠ [])
    (t_raw u_original : List ℚ) (mean : ℚ) (validCs : List Crossing) (pks : List Peak)
    (ht : t_raw = rawData.map (fun d => d.time * 1000000))
    (hu : u_original = if inv then (rawData.map (fun d => d.voltage)).map (fun v => -v)
      else rawData.map (fun d => d.voltage))
    (hmean : mean = tailBaseline (smoothSignal u_original w))
    (hv : validCs = validCrossings (detectRawCrossings t_raw (smoothSignal u_original w) mean) p)
    (hp : pks = extractPeaks t_raw (smoothSignal u_original w) validCs mean) :
    ∃ pd, processSignal rawData w p inv = some pd ∧
      pd.meanVoltage = 0 ∧
      (pd.zeroCrossings ≠ [] → (pd.zeroCrossings.headD default).t = 0) ∧
      ∃ t_off,
        (validCs ≠ [] → t_off = (validCs.headD default).t) ∧
        pd.t = t_raw.map (fun x => x - t_off) ∧
        pd.u_raw = u_original.map (fun u => u - mean) ∧
        pd.u_smooth = (smoothSignal u_original w).map (fun u => u - mean) ∧
        pd.peaks = pks.map (fun pk => ⟨pk.x - t_off, pk.y - mean⟩) ∧
        pd.zeroCrossings = validCs.map (fun c => ⟨c.t - t_off, c.idx⟩) := by
  subst ht hu hmean hv hp
  have h0 : ¬ rawData.length = 0 := fun hc => h (List.length_eq_zero.mp hc)
  rw [processSignal, if_neg h0]
  refine ⟨_, rfl, rfl, ?_, _, ?_, rfl, rfl, rfl, rfl, rfl⟩
  · intro hne
    rw [ne_eq, List.map_eq_nil_iff] at hne
    obtain ⟨c, cs, hcs⟩ := List.exists_cons_of_ne_nil hne
    rw [hcs]
    simp
  · intro hne
    rw [if_pos (List.length_pos.mpr hne)]

/-- C6 witness: on the concrete `exTrace` run the pipeline output has
`meanVoltage = 0` and its first valid crossing at normalised time `0`. -/
theorem normalization_invariant_witness :
    ∃ pd, processSignal exTrace 1 (1/10) false = some pd ∧ pd.meanVoltage = 0 ∧
      (pd.zeroCrossings ≠ [] → (pd.zeroCrossings.headD default).t = 0) := by
  obtain ⟨pd, h1, h2, h3, -⟩ :=
    normalization_invariant exTrace 1 (1/10) false (by simp [exTrace]) _ _ _ _ _
      rfl rfl rfl rfl rfl
  exact ⟨pd, h1, h2, h3⟩

/-! ### Valid crossings: ordered contiguous prefix -/

/-- Strictly pairwise-increasing lists are strictly increasing under `getD`
at in-bound indices. -/
lemma sorted_getD_lt (t : List ℚ) (hmono : t.Pairwise (· < ·)) (a b : ℕ)
    (hab : a < b) (hb : b < t.length) : t.getD a 0 < t.getD b 0 := by
  have ha : a < t.length := lt_trans hab hb
  rw [List.getD_eq_getElem _ _ ha, List.getD_eq_getElem _ _ hb]
  have := List.pairwise_iff_get.mp hmono ⟨a, ha⟩ ⟨b, hb⟩ hab
  simpa using this

/-- Interpolated crossing times are strictly ordered: a crossing in interval
`i` happens strictly before `t[i+1]`, a crossing in interval `j > i` happens
no earlier than `t[j]`. -/
lemma interp_mono (t u : List ℚ) (m : ℚ) (hlen : t.length = u.length)
    (hmono : t.Pairwise (· < ·)) (i j : ℕ) (hij : i < j) (hj : j < u.length - 1)
    (hi1 : u.getD i 0 ≤ m) (hi2 : m < u.getD (i + 1) 0)
    (hj1 : u.getD j 0 ≤ m) (hj2 : m < u.getD (j + 1) 0) :
    t.getD i 0 + (m - u.getD i 0) / (u.getD (i + 1) 0 - u.getD i 0) *
        (t.getD (i + 1) 0 - t.getD i 0) <
      t.getD j 0 + (m - u.getD j 0) / (u.getD (j + 1) 0 - u.getD j 0) *
        (t.getD (j + 1) 0 - t.getD j 0) := by
  have hjn : j + 1 < t.length := by rw [hlen]; omega
  have hin : i + 1 < t.length := by rw [hlen]; omega
  have hti : t.getD i 0 < t.getD (i + 1) 0 := sorted_getD_lt t hmono i (i + 1) (by omega) hin
  have htj : t.getD j 0 < t.getD (j + 1) 0 := sorted_getD_lt t hmono j (j + 1) (by omega) hjn
  have hij1 : t.getD (i + 1) 0 ≤ t.getD j 0 := by
    rcases eq_or_lt_of_le (by omega : i + 1 ≤ j) with heq | hlt
    · rw [heq]
    · exact le_of_lt (sorted_getD_lt t hmono (i + 1) j hlt (by rw [hlen]; omega))
  have hdi : (0 : ℚ) < u.getD (i + 1) 0 - u.getD i 0 := by linarith
  have hdj : (0 : ℚ) < u.getD (j + 1) 0 - u.getD j 0 := by linarith
  have hfi_lt : (m - u.getD i 0) / (u.getD (i + 1) 0 - u.getD i 0) < 1 := by
    rw [div_lt_one hdi]
    linarith
  have hfi_nn : 0 ≤ (m - u.getD i 0) / (u.getD (i + 1) 0 - u.getD i 0) :=
    div_nonneg (by linarith) (le_of_lt hdi)
  have hfj_nn : 0 ≤ (m - u.getD j 0) / (u.getD (j + 1) 0 - u.getD j 0) :=
    div_nonneg (by linarith) (le_of_lt hdj)
  calc t.getD i 0 + (m - u.getD i 0) / (u.getD (i + 1) 0 - u.getD i 0) *
          (t.getD (i + 1) 0 - t.getD i 0)
      < t.getD i 0 + 1 * (t.getD (i + 1) 0 - t.getD i 0) := by
        have := mul_lt_mul_of_pos_right hfi_lt (by linarith : (0 : ℚ) < t.getD (i + 1) 0 - t.getD i 0)
        linarith
    _ = t.getD (i + 1) 0 := by ring
    _ ≤ t.getD j 0 := hij1
    _ ≤ t.getD j 0 + (m - u.getD j 0) / (u.getD (j + 1) 0 - u.getD j 0) *
          (t.getD (j + 1) 0 - t.getD j 0) := by
        have := mul_nonneg hfj_nn (by linarith : (0 : ℚ) ≤ t.getD (j + 1) 0 - t.getD j 0)
        linarith

/-- With strictly increasing sample times, the raw crossings come out with
strictly increasing interpolated times. -/
lemma detect_sorted (t u : List ℚ) (m : ℚ) (hlen : t.length = u.length)
    (hmono : t.Pairwise (· < ·)) :
    (detectRawCrossings t u m).Pairwise (fun a b => a.t < b.t) := by
  rw [detectRawCrossings]
  refine List.pairwise_filterMap.mpr ?_
  have h1 : (List.range (u.length - 1)).Pairwise (fun a b => a < b ∧ b < u.length - 1) := by
    have h0 : (List.range (u.length - 1)).Pairwise (· < ·) := by
      rw [List.range_eq_range']
      exact List.pairwise_lt_range' 0 (u.length - 1)
    exact h0.imp_of_mem (fun {a b} _ hb hab => ⟨hab, List.mem_range.mp hb⟩)
  refine h1.imp ?_
  rintro i j ⟨hij, hj⟩
  intro c hc c' hc'
  dsimp only at hc hc'
  by_cases hci : u.getD i 0 ≤ m ∧ m < u.getD (i + 1) 0
  · by_cases hcj : u.getD j 0 ≤ m ∧ m < u.getD (j + 1) 0
    · rw [if_pos hci, Option.mem_some_iff] at hc
      rw [if_pos hcj, Option.mem_some_iff] at hc'
      subst hc hc'
      exact interp_mono t u m hlen hmono i j hij hj hci.1 hci.2 hcj.1 hcj.2
    · rw [if_neg hcj] at hc'
      simp at hc'
  · rw [if_neg hci] at hc
    simp at hc

/-- C7.  For strictly increasing sample times, the valid crossings form a
contiguous prefix (initial segment) of the raw crossing list — nothing is
skipped and resumed — and their interpolated times strictly increase. -/
theorem valid_crossings_prefix_sorted (t u : List ℚ) (m p : ℚ)
    (hlen : t.length = u.length) (hmono : t.Pairwise (· < ·)) :
    validCrossings (detectRawCrossings t u m) p <+: detectRawCrossings t u m ∧
    (validCrossings (detectRawCrossings t u m) p).Pairwise (fun a b => a.t < b.t) :=
  ⟨validCrossings_isPrefix _ p,
    List.Pairwise.sublist (validCrossings_isPrefix _ p).sublist
      (detect_sorted t u m hlen hmono)⟩

/-- C7 witness: a concrete strictly increasing 5-sample trace. -/
theorem valid_crossings_prefix_sorted_witness :
    validCrossings (detectRawCrossings [0, 1, 2, 3, 4] [0, 2, 0, 2, 0] 1) (1/10) <+:
      detectRawCrossings [0, 1, 2, 3, 4] [0, 2, 0, 2, 0] 1 ∧
    (validCrossings (detectRawCrossings [0, 1, 2, 3, 4] [0, 2, 0, 2, 0] 1) (1/10)).Pairwise
      (fun a b => a.t < b.t) :=
  valid_crossings_prefix_sorted [0, 1, 2, 3, 4] [0, 2, 0, 2, 0] 1 (1/10) rfl
    (by norm_num [List.pairwise_cons])
